import Mathlib

/-!
Verification development for the CasperFlow contracts
(casperflow-contracts/src/vault.rs, automation_engine.rs, types.rs,
errors.rs, events.rs).

Modelling conventions:
* `Address` is an opaque equality-comparable identifier, modelled as `Nat`.
* `U512` amounts and `u64` counters/timestamps are modelled as exact
  naturals: the Casper `U512` arithmetic used by the contracts is
  checked (it aborts rather than wrapping), and the `u64` counters and
  block timestamps never approach `2 ^ 64` in any reachable execution,
  so no wrap-around is reachable.
* Stored ledger balances are modelled as `Int` so that the claim that a
  balance can never become negative is contentful (in the source the
  guard `current_balance < amount` is what prevents an unsigned
  underflow abort).
* An Odra `Mapping` is modelled as an association list with
  first-occurrence lookup and replace; `Var<T>` becomes a plain field.
* A contract entry point becomes a function returning
  `Except Error State`: `env().revert(e)` is `Except.error e`, and the
  run-level semantics keeps the pre-state on error (Odra reverts are
  atomic: all writes and emitted events of the call are discarded).
* `env().emit_event` conses the event onto a per-contract log (newest
  first).
* The tokens physically received by the vault contract (payable
  deposits) and sent out by it (`env().transfer_tokens`) are tracked in
  the fields `total_in` / `total_out` of the vault state: they model the
  host environment token flow, which is observable on chain.
-/

namespace CasperFlow

/-- Account / contract identifier: opaque, globally unique, equality
comparable.  Modelled as a natural number. -/
abbrev Address := Nat

/-! ### Association-list maps (model of the Odra `Mapping` storage) -/

/-- Lookup in an association list (first occurrence), `Mapping::get`. -/
def mget {α β : Type} [DecidableEq α] : List (α × β) → α → Option β
  | [], _ => none
  | (b, w) :: rest, a => if b = a then some w else mget rest a

/-- Insert-or-replace in an association list (replaces the first
occurrence), `Mapping::set`. -/
def mset {α β : Type} [DecidableEq α] : List (α × β) → α → β → List (α × β)
  | [], a, v => [(a, v)]
  | (b, w) :: rest, a, v =>
    if b = a then (a, v) :: rest else (b, w) :: mset rest a v

/-- Lookup with a default value, `Mapping::get_or_default`. -/
def mgetD {α β : Type} [DecidableEq α] (m : List (α × β)) (a : α) (d : β) : β :=
  (mget m a).getD d

/-- Sum of all values stored in a balances map. -/
def sumVals (m : List (Address × Int)) : Int :=
  (m.map Prod.snd).sum

theorem mget_mset_self {α β : Type} [DecidableEq α] (m : List (α × β)) (a : α) (v : β) :
    mget (mset m a v) a = some v := by
  induction m with
  | nil => simp [mget, mset]
  | cons p rest ih =>
    obtain ⟨b, w⟩ := p
    by_cases h : b = a
    · subst h; simp [mget, mset]
    · simp [mget, mset, h, ih]

theorem mget_mset_ne {α β : Type} [DecidableEq α] (m : List (α × β)) (a x : α) (v : β)
    (hx : x ≠ a) : mget (mset m a v) x = mget m x := by
  induction m with
  | nil =>
    simp only [mset, mget]
    rw [if_neg (Ne.symm hx)]
  | cons p rest ih =>
    obtain ⟨b, w⟩ := p
    simp only [mset]
    by_cases h : b = a
    · subst h
      simp only [if_pos rfl, mget]
      rw [if_neg (Ne.symm hx), if_neg (Ne.symm hx)]
    · simp only [if_neg h, mget, ih]

theorem sumVals_mset (m : List (Address × Int)) (a : Address) (v : Int) :
    sumVals (mset m a v) = sumVals m + v - mgetD m a 0 := by
  induction m with
  | nil => simp [sumVals, mset, mgetD, mget]
  | cons p rest ih =>
    obtain ⟨b, w⟩ := p
    by_cases h : b = a
    · subst h
      simp [sumVals, mset, mgetD, mget]
      ring
    · simp only [sumVals, mset, h, if_false, List.map_cons, List.sum_cons, mgetD, mget]
      simp only [sumVals, mgetD] at ih
      rw [ih]
      ring

/-! ### Errors (errors.rs) -/

/-- Error codes of the CasperFlow contracts, mirroring `enum Error` in
errors.rs.  The extra constructor `HostError` is not an `Error` code
from the source: it models a host-level abort of a cross-contract call
whose target address hosts no vault contract. -/
inductive Error
  | InsufficientBalance
  | NotVaultOwner
  | UnauthorizedExecutor
  | ZeroAmount
  | RuleNotFound
  | NotRuleOwner
  | RuleNotActive
  | RuleAlreadyPaused
  | RuleNotPaused
  | ConditionNotMet
  | InvalidRuleConfig
  | MaxRulesReached
  | TriggerTimeNotReached
  | InsufficientStakingBalance
  | InvalidValidator
  | MinimumStakeNotMet
  | HostError
deriving DecidableEq, Repr

/-! ### Events (events.rs) -/

/-- Events emitted by the vault contract (events.rs). -/
inductive VaultEvent
  | Deposited (owner : Address) (amount : Nat) (new_balance : Int)
  | Withdrawn (owner : Address) (amount : Nat) (new_balance : Int)
  | AutomationExecuted (owner : Address) (rule_id : Nat) (recipient : Address) (amount : Nat)
deriving DecidableEq, Repr

/-- Events emitted by the automation engine contract (events.rs). -/
inductive EngineEvent
  | RuleCreated (rule_id : Nat) (owner : Address) (template_type : String)
  | RulePaused (rule_id : Nat) (owner : Address)
  | RuleResumed (rule_id : Nat) (owner : Address)
  | RuleDeleted (rule_id : Nat) (owner : Address)
  | RuleExecuted (rule_id : Nat) (owner : Address) (executed_at : Nat)
deriving DecidableEq, Repr

/-! ### The vault contract (vault.rs) -/

/-- State of the `AutomationVault` module (vault.rs), together with the
host-environment token flow: `total_in` is the sum of all attached
values accepted by successful payable calls, `total_out` the sum of all
amounts the contract sent out via `env().transfer_tokens`. -/
structure AutomationVault where
  balances : List (Address × Int)
  authorized_engine : Option Address
  log : List VaultEvent
  total_in : Nat
  total_out : Nat
deriving DecidableEq, Repr

namespace AutomationVault

/-- The `AutomationVault::init` constructor. -/
def init (automation_engine : Option Address) : AutomationVault :=
  { balances := []
    authorized_engine := automation_engine
    log := []
    total_in := 0
    total_out := 0 }

/-- The `AutomationVault::deposit` entry point.  `caller` is
`env().caller()` and `amount` the attached value. -/
def deposit (v : AutomationVault) (caller : Address) (amount : Nat) :
    Except Error AutomationVault :=
  if amount = 0 then
    .error .ZeroAmount
  else
    let current_balance := mgetD v.balances caller 0
    let new_balance := current_balance + (amount : Int)
    .ok { v with
            balances := mset v.balances caller new_balance
            total_in := v.total_in + amount
            log := .Deposited caller amount new_balance :: v.log }

/-- The `AutomationVault::withdraw` entry point. -/
def withdraw (v : AutomationVault) (caller : Address) (amount : Nat) :
    Except Error AutomationVault :=
  if amount = 0 then
    .error .ZeroAmount
  else
    let current_balance := mgetD v.balances caller 0
    if current_balance < (amount : Int) then
      .error .InsufficientBalance
    else
      let new_balance := current_balance - (amount : Int)
      .ok { v with
              balances := mset v.balances caller new_balance
              total_out := v.total_out + amount
              log := .Withdrawn caller amount new_balance :: v.log }

/-- The `AutomationVault::execute_transfer` entry point, guarded by the
authorized-engine check. -/
def execute_transfer (v : AutomationVault) (caller owner recipient : Address)
    (amount rule_id : Nat) : Except Error AutomationVault :=
  match v.authorized_engine with
  | some engine_addr =>
    if caller ≠ engine_addr then
      .error .UnauthorizedExecutor
    else
      let current_balance := mgetD v.balances owner 0
      if current_balance < (amount : Int) then
        .error .InsufficientBalance
      else
        let new_balance := current_balance - (amount : Int)
        .ok { v with
                balances := mset v.balances owner new_balance
                total_out := v.total_out + amount
                log := .AutomationExecuted owner rule_id recipient amount :: v.log }
  | none => .error .UnauthorizedExecutor

/-- The `AutomationVault::set_automation_engine` entry point: replaces
the authorized caller unconditionally (the source reads no caller). -/
def set_automation_engine (v : AutomationVault) (_caller engine : Address) :
    AutomationVault :=
  { v with authorized_engine := some engine }

/-- The `AutomationVault::get_balance` view. -/
def get_balance (v : AutomationVault) (owner : Address) : Int :=
  mgetD v.balances owner 0

/-- The `AutomationVault::get_automation_engine` view. -/
def get_automation_engine (v : AutomationVault) : Option Address :=
  v.authorized_engine

end AutomationVault

/-! ### Rule data model (types.rs) -/

/-- The type of trigger that activates a rule (types.rs). -/
inductive TriggerType
  | Time
  | Condition
  | Manual
deriving DecidableEq, Repr

/-- The frequency of scheduled executions (types.rs). -/
inductive Schedule
  | Daily
  | Weekly
  | Monthly
deriving DecidableEq, Repr

/-- The type of action a rule performs (types.rs). -/
inductive ActionType
  | Transfer
  | Split
  | Compound
deriving DecidableEq, Repr

/-- The status of a rule (types.rs). -/
inductive RuleStatus
  | Active
  | Paused
  | Deleted
deriving DecidableEq, Repr

/-- Tier of a user based on sCSPR holdings (types.rs). -/
inductive StakingTier
  | Starter
  | Bronze
  | Silver
  | Gold
deriving DecidableEq, Repr

namespace StakingTier

/-- The `StakingTier::max_rules` table.  `Gold` maps to `u32::MAX`. -/
def max_rules : StakingTier → Nat
  | .Starter => 2
  | .Bronze => 5
  | .Silver => 10
  | .Gold => 4294967295

/-- The `StakingTier::from_balance` thresholds (balance in motes). -/
def from_balance (balance : Nat) : StakingTier :=
  if balance ≥ 1000000000000 then .Gold
  else if balance ≥ 500000000000 then .Silver
  else if balance ≥ 100000000000 then .Bronze
  else .Starter

end StakingTier

/-- The on-chain automation rule record (types.rs `AutomationRule`). -/
structure AutomationRule where
  id : Nat
  owner : Address
  trigger_type : TriggerType
  schedule : Schedule
  action_type : ActionType
  status : RuleStatus
  template_name : String
  recipient : Option Address
  amount : Nat
  last_executed : Nat
  next_execution : Nat
  execution_count : Nat
deriving DecidableEq, Repr

namespace AutomationRule

/-- The `AutomationRule::new` constructor (types.rs): status starts
`Active`, `last_executed` 0, `execution_count` 0. -/
def new (id : Nat) (owner : Address) (template_name : String)
    (trigger_type : TriggerType) (schedule : Schedule) (action_type : ActionType)
    (recipient : Option Address) (amount : Nat) (next_execution : Nat) :
    AutomationRule :=
  { id := id
    owner := owner
    trigger_type := trigger_type
    schedule := schedule
    action_type := action_type
    status := .Active
    template_name := template_name
    recipient := recipient
    amount := amount
    last_executed := 0
    next_execution := next_execution
    execution_count := 0 }

end AutomationRule

/-! ### The automation engine contract (automation_engine.rs) -/

/-- Seconds in a day. -/
def SECONDS_PER_DAY : Nat := 86400
/-- Seconds in a week. -/
def SECONDS_PER_WEEK : Nat := 604800
/-- Seconds in a month (approximate: 30 days). -/
def SECONDS_PER_MONTH : Nat := 2592000

/-- State of the `AutomationEngine` module (automation_engine.rs). -/
structure AutomationEngine where
  next_rule_id : Nat
  rules : List (Nat × AutomationRule)
  user_rules : List (Address × List Nat)
  user_rule_count : List (Address × Nat)
  vault_address : Option Address
  log : List EngineEvent
deriving DecidableEq, Repr

namespace AutomationEngine

/-- The `AutomationEngine::init` constructor: the id counter starts
at 1. -/
def init (vault_address : Option Address) : AutomationEngine :=
  { next_rule_id := 1
    rules := []
    user_rules := []
    user_rule_count := []
    vault_address := vault_address
    log := [] }

/-- The `AutomationEngine::get_user_tier` view: an MVP stub, every
account is at `Starter` tier. -/
def get_user_tier (_owner : Address) : StakingTier :=
  .Starter

/-- The `AutomationEngine::calculate_next_execution` helper. -/
def calculate_next_execution (from_time : Nat) (schedule : Schedule) : Nat :=
  match schedule with
  | .Daily => from_time + SECONDS_PER_DAY
  | .Weekly => from_time + SECONDS_PER_WEEK
  | .Monthly => from_time + SECONDS_PER_MONTH

/-- The `AutomationEngine::create_rule` entry point.  `caller` is
`env().caller()`, `now` is `env().get_block_time()`.  Returns the new
rule id together with the updated state. -/
def create_rule (e : AutomationEngine) (caller : Address) (now : Nat)
    (template_name : String) (trigger_type : TriggerType) (schedule : Schedule)
    (action_type : ActionType) (recipient : Option Address) (amount : Nat) :
    Except Error (AutomationEngine × Nat) :=
  let current_count := mgetD e.user_rule_count caller 0
  let tier := get_user_tier caller
  if current_count ≥ tier.max_rules then
    .error .MaxRulesReached
  else
    let rule_id := e.next_rule_id
    let next_execution := calculate_next_execution now schedule
    let rule := AutomationRule.new rule_id caller template_name trigger_type
      schedule action_type recipient amount next_execution
    let user_rule_ids := mgetD e.user_rules caller []
    .ok ({ e with
             next_rule_id := rule_id + 1
             rules := mset e.rules rule_id rule
             user_rules := mset e.user_rules caller (user_rule_ids ++ [rule_id])
             user_rule_count := mset e.user_rule_count caller (current_count + 1)
             log := .RuleCreated rule_id caller template_name :: e.log },
         rule_id)

/-- The `AutomationEngine::pause_rule` entry point. -/
def pause_rule (e : AutomationEngine) (caller : Address) (rule_id : Nat) :
    Except Error AutomationEngine :=
  match mget e.rules rule_id with
  | none => .error .RuleNotFound
  | some rule =>
    if rule.owner ≠ caller then
      .error .NotRuleOwner
    else
      match rule.status with
      | .Paused => .error .RuleAlreadyPaused
      | .Deleted => .error .RuleNotFound
      | .Active =>
        .ok { e with
                rules := mset e.rules rule_id { rule with status := .Paused }
                log := .RulePaused rule_id caller :: e.log }

/-- The `AutomationEngine::resume_rule` entry point: flips back to
`Active` and recomputes `next_execution` from the current time. -/
def resume_rule (e : AutomationEngine) (caller : Address) (now : Nat)
    (rule_id : Nat) : Except Error AutomationEngine :=
  match mget e.rules rule_id with
  | none => .error .RuleNotFound
  | some rule =>
    if rule.owner ≠ caller then
      .error .NotRuleOwner
    else
      match rule.status with
      | .Active => .error .RuleNotPaused
      | .Deleted => .error .RuleNotFound
      | .Paused =>
        .ok { e with
                rules := mset e.rules rule_id
                  { rule with
                      status := .Active
                      next_execution := calculate_next_execution now rule.schedule }
                log := .RuleResumed rule_id caller :: e.log }

/-- The `AutomationEngine::delete_rule` entry point: marks the rule
`Deleted` regardless of its prior status and decrements the rule count
only when it is positive.  There is no check that the rule is not
already `Deleted`. -/
def delete_rule (e : AutomationEngine) (caller : Address) (rule_id : Nat) :
    Except Error AutomationEngine :=
  match mget e.rules rule_id with
  | none => .error .RuleNotFound
  | some rule =>
    if rule.owner ≠ caller then
      .error .NotRuleOwner
    else
      let current_count := mgetD e.user_rule_count caller 0
      .ok { e with
              rules := mset e.rules rule_id { rule with status := .Deleted }
              user_rule_count :=
                if current_count > 0 then
                  mset e.user_rule_count caller (current_count - 1)
                else e.user_rule_count
              log := .RuleDeleted rule_id caller :: e.log }

/-- The `AutomationEngine::set_vault_address` entry point: the source
reads no caller and performs no access check, it unconditionally
replaces the stored vault reference. -/
def set_vault_address (e : AutomationEngine) (_caller vault : Address) :
    AutomationEngine :=
  { e with vault_address := some vault }

/-- The call-target resolution at the head of the private
`AutomationEngine::execute_transfer` helper: a configured vault address
is returned, a missing one reverts with `InvalidRuleConfig`. -/
def transfer_target (e : AutomationEngine) : Except Error Address :=
  match e.vault_address with
  | some addr => .ok addr
  | none => .error .InvalidRuleConfig

/-- The `AutomationEngine::get_rule` view. -/
def get_rule (e : AutomationEngine) (rule_id : Nat) : Option AutomationRule :=
  mget e.rules rule_id

/-- The `AutomationEngine::get_user_rule_count` view. -/
def get_user_rule_count (e : AutomationEngine) (owner : Address) : Nat :=
  mgetD e.user_rule_count owner 0

end AutomationEngine

/-! ### Combined deployment (one vault, one engine)

`execute_rule` spans both contracts: the engine resolves its configured
vault address and performs a cross-contract call on it (with the engine
as the caller the vault observes).  `World` holds the two deployed
module states together with their contract addresses. -/

/-- A deployed pair of contracts: the vault lives at `vaultAddr`, the
engine at `engineAddr`. -/
structure World where
  vaultAddr : Address
  engineAddr : Address
  vault : AutomationVault
  engine : AutomationEngine
deriving DecidableEq, Repr

namespace World

/-- Deployment: vault and engine initialised with their `init`
arguments. -/
def initWorld (vaultAddr engineAddr : Address) (eng0 va0 : Option Address) :
    World :=
  { vaultAddr := vaultAddr
    engineAddr := engineAddr
    vault := AutomationVault.init eng0
    engine := AutomationEngine.init va0 }

/-- The private `AutomationEngine::execute_transfer` helper: resolves
the vault address and the rule recipient (each missing one reverts with
`InvalidRuleConfig`), then calls `AutomationVault::execute_transfer` on
the contract at that address with the engine as caller.  A target
address hosting no vault is modelled as a host-level abort. -/
def engine_execute_transfer (w : World) (rule : AutomationRule) :
    Except Error AutomationVault :=
  match w.engine.transfer_target with
  | .error err => .error err
  | .ok vault_addr =>
    match rule.recipient with
    | none => .error .InvalidRuleConfig
    | some recipient =>
      if vault_addr = w.vaultAddr then
        w.vault.execute_transfer w.engineAddr rule.owner recipient
          rule.amount rule.id
      else
        .error .HostError

/-- The trigger due-check of `AutomationEngine::execute_rule`: a Time
rule must be due, a Manual rule may only be fired by its owner, a
Condition rule is (for now) fired unconditionally. -/
def trigger_check (rule : AutomationRule) (caller : Address) (now : Nat) :
    Except Error Unit :=
  match rule.trigger_type with
  | .Time =>
    if now < rule.next_execution then .error .TriggerTimeNotReached
    else .ok ()
  | .Manual =>
    if rule.owner ≠ caller then .error .NotRuleOwner else .ok ()
  | .Condition => .ok ()

/-- The action dispatch of `AutomationEngine::execute_rule`: Transfer
and Split both resolve to a single-recipient vault transfer, Compound
is a no-op placeholder. -/
def dispatch_action (w : World) (rule : AutomationRule) :
    Except Error AutomationVault :=
  match rule.action_type with
  | .Transfer => w.engine_execute_transfer rule
  | .Split => w.engine_execute_transfer rule
  | .Compound => .ok w.vault

/-- The `AutomationEngine::execute_rule` entry point: status check,
trigger due-check, action dispatch through the vault, then the
post-dispatch bookkeeping (`last_executed`, rescheduled
`next_execution`, incremented `execution_count`) and the `RuleExecuted`
event. -/
def execute_rule (w : World) (caller : Address) (now : Nat) (rule_id : Nat) :
    Except Error World :=
  match mget w.engine.rules rule_id with
  | none => .error .RuleNotFound
  | some rule =>
    match rule.status with
    | .Paused => .error .RuleNotActive
    | .Deleted => .error .RuleNotActive
    | .Active =>
      match trigger_check rule caller now with
      | .error err => .error err
      | .ok _ =>
        match w.dispatch_action rule with
        | .error err => .error err
        | .ok vault2 =>
          let rule2 :=
            { rule with
                last_executed := now
                next_execution :=
                  AutomationEngine.calculate_next_execution now rule.schedule
                execution_count := rule.execution_count + 1 }
          .ok { w with
                  vault := vault2
                  engine :=
                    { w.engine with
                        rules := mset w.engine.rules rule_id rule2
                        log := .RuleExecuted rule_id rule.owner now ::
                          w.engine.log } }

end World

/-! ### Operation traces -/

/-- One external call into the deployed pair, carrying the identity of
the caller and (for time-dependent entry points) the block time. -/
inductive Op
  | deposit (caller : Address) (amount : Nat)
  | withdraw (caller : Address) (amount : Nat)
  | vaultExecuteTransfer (caller owner recipient : Address) (amount rule_id : Nat)
  | setAutomationEngine (caller engine : Address)
  | createRule (caller : Address) (now : Nat) (template_name : String)
      (trigger_type : TriggerType) (schedule : Schedule) (action_type : ActionType)
      (recipient : Option Address) (amount : Nat)
  | pauseRule (caller : Address) (rule_id : Nat)
  | resumeRule (caller : Address) (now : Nat) (rule_id : Nat)
  | deleteRule (caller : Address) (rule_id : Nat)
  | executeRule (caller : Address) (now : Nat) (rule_id : Nat)
  | setVaultAddress (caller vault : Address)
deriving DecidableEq, Repr

/-- Apply one external call to the world; `Except.error` is a revert of
the entire call. -/
def applyOp (w : World) : Op → Except Error World
  | .deposit caller amount =>
    (w.vault.deposit caller amount).map (fun v => { w with vault := v })
  | .withdraw caller amount =>
    (w.vault.withdraw caller amount).map (fun v => { w with vault := v })
  | .vaultExecuteTransfer caller owner recipient amount rule_id =>
    (w.vault.execute_transfer caller owner recipient amount rule_id).map
      (fun v => { w with vault := v })
  | .setAutomationEngine caller engine =>
    .ok { w with vault := w.vault.set_automation_engine caller engine }
  | .createRule caller now tn tt sc ac rec am =>
    (w.engine.create_rule caller now tn tt sc ac rec am).map
      (fun p => { w with engine := p.1 })
  | .pauseRule caller rule_id =>
    (w.engine.pause_rule caller rule_id).map (fun e => { w with engine := e })
  | .resumeRule caller now rule_id =>
    (w.engine.resume_rule caller now rule_id).map (fun e => { w with engine := e })
  | .deleteRule caller rule_id =>
    (w.engine.delete_rule caller rule_id).map (fun e => { w with engine := e })
  | .executeRule caller now rule_id => w.execute_rule caller now rule_id
  | .setVaultAddress caller vault =>
    .ok { w with engine := w.engine.set_vault_address caller vault }

/-- Run-level semantics of one call: a revert is atomic, the pre-state
(including the event logs) is kept. -/
def step (w : World) (op : Op) : World :=
  match applyOp w op with
  | .ok w2 => w2
  | .error _ => w

/-- Run a sequence of external calls. -/
def runOps (w : World) : List Op → World
  | [] => w
  | op :: ops => runOps (step w op) ops

/-! ### Ledger conservation (claim C1) -/

/-- The vault ledger invariant: custody balances plus everything paid
out equals everything deposited, and no stored balance is negative. -/
def VaultInv (v : AutomationVault) : Prop :=
  sumVals v.balances + (v.total_out : Int) = (v.total_in : Int) ∧
    ∀ a, 0 ≤ mgetD v.balances a 0

theorem mgetD_mset_nonneg {m : List (Address × Int)} {a : Address} {v : Int}
    (hv : 0 ≤ v) (h : ∀ x, 0 ≤ mgetD m x 0) :
    ∀ x, 0 ≤ mgetD (mset m a v) x 0 := by
  intro x
  by_cases hx : x = a
  · subst hx
    simp [mgetD, mget_mset_self, hv]
  · rw [mgetD, mget_mset_ne _ _ _ _ hx]
    exact h x

theorem vaultInv_init (eng0 : Option Address) :
    VaultInv (AutomationVault.init eng0) := by
  constructor <;> simp [AutomationVault.init, sumVals, mgetD, mget]

theorem deposit_inv {v v' : AutomationVault} {c : Address} {a : Nat}
    (h : v.deposit c a = .ok v') (hv : VaultInv v) : VaultInv v' := by
  unfold AutomationVault.deposit at h
  split at h
  · exact absurd h (by simp)
  · simp only [Except.ok.injEq] at h
    subst h
    obtain ⟨hsum, hnn⟩ := hv
    refine ⟨?_, ?_⟩
    · simp only [sumVals_mset]
      push_cast
      omega
    · exact mgetD_mset_nonneg (by have := hnn c; positivity) hnn

theorem withdraw_inv {v v' : AutomationVault} {c : Address} {a : Nat}
    (h : v.withdraw c a = .ok v') (hv : VaultInv v) : VaultInv v' := by
  unfold AutomationVault.withdraw at h
  dsimp only at h
  split at h
  · exact absurd h (by simp)
  · split at h
    · exact absurd h (by simp)
    · rename_i hzero hbal
      simp only [Except.ok.injEq] at h
      subst h
      obtain ⟨hsum, hnn⟩ := hv
      refine ⟨?_, ?_⟩
      · simp only [sumVals_mset]
        push_cast
        omega
      · exact mgetD_mset_nonneg (by omega) hnn

theorem execute_transfer_inv {v v' : AutomationVault} {c o r : Address}
    {a rid : Nat} (h : v.execute_transfer c o r a rid = .ok v')
    (hv : VaultInv v) : VaultInv v' := by
  unfold AutomationVault.execute_transfer at h
  dsimp only at h
  split at h
  · split at h
    · exact absurd h (by simp)
    · split at h
      · exact absurd h (by simp)
      · rename_i hbal
        simp only [Except.ok.injEq] at h
        subst h
        obtain ⟨hsum, hnn⟩ := hv
        refine ⟨?_, ?_⟩
        · simp only [sumVals_mset]
          push_cast
          omega
        · exact mgetD_mset_nonneg (by omega) hnn
  · exact absurd h (by simp)

theorem engine_execute_transfer_inv {w : World} {rule : AutomationRule}
    {v' : AutomationVault} (h : w.engine_execute_transfer rule = .ok v')
    (hv : VaultInv w.vault) : VaultInv v' := by
  unfold World.engine_execute_transfer at h
  split at h
  · exact absurd h (by simp)
  · split at h
    · exact absurd h (by simp)
    · split at h
      · exact execute_transfer_inv h hv
      · exact absurd h (by simp)

theorem dispatch_action_inv {w : World} {rule : AutomationRule}
    {v' : AutomationVault} (h : w.dispatch_action rule = .ok v')
    (hv : VaultInv w.vault) : VaultInv v' := by
  unfold World.dispatch_action at h
  split at h
  · exact engine_execute_transfer_inv h hv
  · exact engine_execute_transfer_inv h hv
  · simp only [Except.ok.injEq] at h
    subst h
    exact hv

theorem execute_rule_inv {w w' : World} {c : Address} {now rid : Nat}
    (h : w.execute_rule c now rid = .ok w') (hv : VaultInv w.vault) :
    VaultInv w'.vault := by
  unfold World.execute_rule at h
  split at h
  · exact absurd h (by simp)
  · split at h
    · exact absurd h (by simp)
    · exact absurd h (by simp)
    · split at h
      · exact absurd h (by simp)
      · split at h
        · exact absurd h (by simp)
        · rename_i vault2 hdispatch
          simp only [Except.ok.injEq] at h
          subst h
          exact dispatch_action_inv hdispatch hv

theorem step_vaultInv (w : World) (op : Op) (hv : VaultInv w.vault) :
    VaultInv (step w op).vault := by
  cases op with
  | deposit c a =>
    simp only [step, applyOp]
    cases h : w.vault.deposit c a with
    | error e => simpa [h, Except.map] using hv
    | ok v2 =>
      simp only [h, Except.map]
      exact deposit_inv h hv
  | withdraw c a =>
    simp only [step, applyOp]
    cases h : w.vault.withdraw c a with
    | error e => simpa [h, Except.map] using hv
    | ok v2 =>
      simp only [h, Except.map]
      exact withdraw_inv h hv
  | vaultExecuteTransfer c o r a rid =>
    simp only [step, applyOp]
    cases h : w.vault.execute_transfer c o r a rid with
    | error e => simpa [h, Except.map] using hv
    | ok v2 =>
      simp only [h, Except.map]
      exact execute_transfer_inv h hv
  | setAutomationEngine c eng =>
    simpa [step, applyOp, AutomationVault.set_automation_engine, VaultInv]
      using hv
  | createRule c now tn tt sc ac rec am =>
    simp only [step, applyOp]
    cases h : w.engine.create_rule c now tn tt sc ac rec am with
    | error e => simpa [h, Except.map] using hv
    | ok p => simpa [h, Except.map] using hv
  | pauseRule c rid =>
    simp only [step, applyOp]
    cases h : w.engine.pause_rule c rid with
    | error e => simpa [h, Except.map] using hv
    | ok e2 => simpa [h, Except.map] using hv
  | resumeRule c now rid =>
    simp only [step, applyOp]
    cases h : w.engine.resume_rule c now rid with
    | error e => simpa [h, Except.map] using hv
    | ok e2 => simpa [h, Except.map] using hv
  | deleteRule c rid =>
    simp only [step, applyOp]
    cases h : w.engine.delete_rule c rid with
    | error e => simpa [h, Except.map] using hv
    | ok e2 => simpa [h, Except.map] using hv
  | executeRule c now rid =>
    simp only [step, applyOp]
    cases h : w.execute_rule c now rid with
    | error e => simpa [h] using hv
    | ok w2 =>
      simp only [h]
      exact execute_rule_inv h hv
  | setVaultAddress c va =>
    simpa [step, applyOp, AutomationEngine.set_vault_address, VaultInv]
      using hv

theorem runOps_vaultInv (ops : List Op) (w : World) (hv : VaultInv w.vault) :
    VaultInv (runOps w ops).vault := by
  induction ops generalizing w with
  | nil => exact hv
  | cons op ops ih => exact ih (step w op) (step_vaultInv w op hv)

/-- C1.  Balance conservation of the vault: for every sequence of
external calls started from a freshly deployed pair (empty ledger), the
sum of all per-account vault balances plus the total paid out by the
vault (withdrawals and executed transfers) equals the total deposited,
and no account balance is ever negative.  This covers in particular
every sequence of deposit, withdraw and execute transfer calls. -/
theorem vault_balance_conservation (vaultAddr engineAddr : Address)
    (eng0 va0 : Option Address) (ops : List Op) :
    sumVals (runOps (World.initWorld vaultAddr engineAddr eng0 va0) ops).vault.balances
        + ((runOps (World.initWorld vaultAddr engineAddr eng0 va0) ops).vault.total_out : Int)
      = ((runOps (World.initWorld vaultAddr engineAddr eng0 va0) ops).vault.total_in : Int)
    ∧ ∀ a, 0 ≤ mgetD (runOps (World.initWorld vaultAddr engineAddr eng0 va0) ops).vault.balances a 0 :=
  runOps_vaultInv ops (World.initWorld vaultAddr engineAddr eng0 va0)
    (vaultInv_init eng0)

/-! ### Authorization of execute_transfer (claim C2) -/

/-- C2.  Authorization of execute_transfer: whenever the caller is not
the configured authorized engine — in particular every caller when no
engine has been configured — the call fails with
`UnauthorizedExecutor`, and (reverts being atomic) the world, and hence
every account balance, is unchanged. -/
theorem execute_transfer_unauthorized (w : World)
    (caller owner recipient : Address) (amount rule_id : Nat)
    (h : ∀ e, w.vault.authorized_engine = some e → caller ≠ e) :
    applyOp w (.vaultExecuteTransfer caller owner recipient amount rule_id) =
        .error .UnauthorizedExecutor
    ∧ step w (.vaultExecuteTransfer caller owner recipient amount rule_id) = w
    ∧ ∀ a, mgetD (step w (.vaultExecuteTransfer caller owner recipient amount
        rule_id)).vault.balances a 0 = mgetD w.vault.balances a 0 := by
  have hvt : w.vault.execute_transfer caller owner recipient amount rule_id =
      .error .UnauthorizedExecutor := by
    unfold AutomationVault.execute_transfer
    cases hae : w.vault.authorized_engine with
    | none => rfl
    | some e =>
      dsimp only
      rw [if_pos (h e hae)]
  refine ⟨?_, ?_, ?_⟩
  · simp [applyOp, hvt, Except.map]
  · simp [step, applyOp, hvt, Except.map]
  · simp [step, applyOp, hvt, Except.map]

/-- Witness for C2 at a concrete input: a fresh vault has no
authorized engine, so any caller is rejected. -/
theorem execute_transfer_unauthorized_witness :
    applyOp (World.initWorld 100 101 none none)
        (.vaultExecuteTransfer 3 0 1 5 1) = .error .UnauthorizedExecutor :=
  (execute_transfer_unauthorized (World.initWorld 100 101 none none) 3 0 1 5 1
    (by intro e he; simp [World.initWorld, AutomationVault.init] at he)).1

/-! ### Zero-amount execute_transfer (claim C9) -/

/-- C9.  The vault `execute_transfer` has no zero-amount check, unlike
`deposit` and `withdraw`: called by the configured authorized engine
with amount 0 it succeeds for every owner whose stored balance is
non-negative (every reachable balance, including zero), leaves every
balance unchanged, and emits an `AutomationExecuted` record; `deposit`
and `withdraw` with amount 0 fail with `ZeroAmount`. -/
theorem execute_transfer_zero_amount (v : AutomationVault)
    (engine owner recipient : Address) (rule_id : Nat)
    (hauth : v.authorized_engine = some engine)
    (hnn : 0 ≤ mgetD v.balances owner 0) :
    (∃ v', v.execute_transfer engine owner recipient 0 rule_id = .ok v'
       ∧ (∀ a, mgetD v'.balances a 0 = mgetD v.balances a 0)
       ∧ v'.log = .AutomationExecuted owner rule_id recipient 0 :: v.log)
    ∧ (∀ c, v.deposit c 0 = .error .ZeroAmount)
    ∧ (∀ c, v.withdraw c 0 = .error .ZeroAmount) := by
  refine ⟨?_, fun c => rfl, fun c => rfl⟩
  unfold AutomationVault.execute_transfer
  rw [hauth]
  dsimp only
  rw [if_neg (by simp)]
  rw [if_neg (by simpa using hnn)]
  refine ⟨_, rfl, ?_, rfl⟩
  intro a
  by_cases ha : a = owner
  · subst ha
    simp [mgetD, mget_mset_self]
  · simp [mgetD, mget_mset_ne _ _ _ _ ha]

/-- Witness for C9 at a concrete input: a vault whose engine is address
7, owner 0 with zero (default) balance. -/
theorem execute_transfer_zero_amount_witness :
    ∃ v', (AutomationVault.init (some 7)).execute_transfer 7 0 1 0 4 = .ok v'
      ∧ (∀ a, mgetD v'.balances a 0 =
          mgetD (AutomationVault.init (some 7)).balances a 0)
      ∧ v'.log = .AutomationExecuted 0 4 1 0 ::
          (AutomationVault.init (some 7)).log :=
  (execute_transfer_zero_amount (AutomationVault.init (some 7)) 7 0 1 4
    rfl (by simp [AutomationVault.init, mgetD, mget])).1

/-! ### Unrestricted set_vault_address (claim C10) -/

/-- C10.  The engine `set_vault_address` performs no caller check: for
every caller and every address v it succeeds and replaces the stored
vault reference with v (all other engine state unchanged), and the
transfer dispatch target used by subsequent Transfer executions then
resolves to v. -/
theorem set_vault_address_unrestricted (w : World) (caller v : Address) :
    applyOp w (.setVaultAddress caller v) =
      .ok { w with engine := { w.engine with vault_address := some v } }
    ∧ (w.engine.set_vault_address caller v).transfer_target = .ok v :=
  ⟨rfl, rfl⟩

/-! ### Double delete (claim C8) -/

/-- C8.  Deleting an already-deleted rule is not rejected: a
`delete_rule` call by the owner of a rule whose status is already
`Deleted` succeeds (only a missing id raises `RuleNotFound`), it
decrements the owner active-rule count again when that count is above
zero (leaving it unchanged at zero), it emits a second `RuleDeleted`
record, and the rule record keeps status `Deleted`. -/
theorem delete_rule_double_delete (e : AutomationEngine) (rule_id : Nat)
    (r : AutomationRule) (hr : mget e.rules rule_id = some r)
    (hst : r.status = .Deleted) :
    ∃ e', e.delete_rule r.owner rule_id = .ok e'
      ∧ mgetD e'.user_rule_count r.owner 0 =
          (if 0 < mgetD e.user_rule_count r.owner 0 then
            mgetD e.user_rule_count r.owner 0 - 1
          else mgetD e.user_rule_count r.owner 0)
      ∧ e'.log = .RuleDeleted rule_id r.owner :: e.log
      ∧ mget e'.rules rule_id = some r := by
  unfold AutomationEngine.delete_rule
  rw [hr]
  dsimp only
  rw [if_neg (by simp)]
  refine ⟨_, rfl, ?_, rfl, ?_⟩
  · by_cases hc : 0 < mgetD e.user_rule_count r.owner 0
    · rw [if_pos (by omega), if_pos hc]
      simp [mgetD, mget_mset_self]
    · rw [if_neg (by omega), if_neg hc]
  · rw [mget_mset_self]
    have : { r with status := RuleStatus.Deleted } = r := by
      cases r
      simp_all
    rw [this]

/-- A sample rule already in status `Deleted`, owned by address 0. -/
def sampleDeletedRule : AutomationRule :=
  { AutomationRule.new 1 0 "t" .Manual .Daily .Transfer (some 1) 5 86400 with
      status := .Deleted }

/-- An engine state in which rule 1 is already deleted and owner 0
still has an active-rule count of 1. -/
def sampleDeletedEngine : AutomationEngine :=
  { next_rule_id := 2
    rules := [(1, sampleDeletedRule)]
    user_rules := [(0, [1])]
    user_rule_count := [(0, 1)]
    vault_address := none
    log := [.RuleDeleted 1 0] }

/-- Witness for C8 at a concrete input: re-deleting the already-deleted
rule 1 of `sampleDeletedEngine`. -/
theorem delete_rule_double_delete_witness :
    ∃ e', sampleDeletedEngine.delete_rule sampleDeletedRule.owner 1 = .ok e'
      ∧ mgetD e'.user_rule_count sampleDeletedRule.owner 0 =
          (if 0 < mgetD sampleDeletedEngine.user_rule_count
              sampleDeletedRule.owner 0 then
            mgetD sampleDeletedEngine.user_rule_count sampleDeletedRule.owner 0
              - 1
          else mgetD sampleDeletedEngine.user_rule_count
            sampleDeletedRule.owner 0)
      ∧ e'.log = .RuleDeleted 1 sampleDeletedRule.owner ::
          sampleDeletedEngine.log
      ∧ mget e'.rules 1 = some sampleDeletedRule :=
  delete_rule_double_delete sampleDeletedEngine 1 sampleDeletedRule
    (by decide) (by decide)

/-! ### Due-date algorithm (claim C7) -/

/-- C7.  The due-date algorithm: `calculate_next_execution` adds
exactly 86400 (Daily), 604800 (Weekly) or 2592000 (Monthly) seconds to
its `from_time` argument, and every successful rule creation, resume
and execution stores a `next_execution` recomputed by that formula from
the current block time — never accumulated from the previous
`next_execution` value. -/
theorem next_execution_recomputed :
    (∀ t, AutomationEngine.calculate_next_execution t .Daily = t + 86400)
    ∧ (∀ t, AutomationEngine.calculate_next_execution t .Weekly = t + 604800)
    ∧ (∀ t, AutomationEngine.calculate_next_execution t .Monthly = t + 2592000)
    ∧ (∀ (e e' : AutomationEngine) (caller : Address) (now : Nat)
        (tn : String) (tt : TriggerType) (sc : Schedule) (ac : ActionType)
        (rec : Option Address) (am rule_id : Nat),
        e.create_rule caller now tn tt sc ac rec am = .ok (e', rule_id) →
        ∃ r, mget e'.rules rule_id = some r ∧ r.schedule = sc ∧
          r.next_execution = AutomationEngine.calculate_next_execution now sc)
    ∧ (∀ (e e' : AutomationEngine) (caller : Address) (now rule_id : Nat),
        e.resume_rule caller now rule_id = .ok e' →
        ∃ r, mget e'.rules rule_id = some r ∧
          r.next_execution =
            AutomationEngine.calculate_next_execution now r.schedule)
    ∧ (∀ (w w' : World) (caller : Address) (now rule_id : Nat),
        w.execute_rule caller now rule_id = .ok w' →
        ∃ r, mget w'.engine.rules rule_id = some r ∧
          r.next_execution =
            AutomationEngine.calculate_next_execution now r.schedule) := by
  refine ⟨fun t => rfl, fun t => rfl, fun t => rfl, ?_, ?_, ?_⟩
  · intro e e' caller now tn tt sc ac rec am rule_id h
    unfold AutomationEngine.create_rule at h
    dsimp only at h
    split at h
    · exact absurd h (by simp)
    · simp only [Except.ok.injEq, Prod.mk.injEq] at h
      obtain ⟨he, hid⟩ := h
      subst he
      subst hid
      exact ⟨_, mget_mset_self _ _ _, rfl, rfl⟩
  · intro e e' caller now rule_id h
    unfold AutomationEngine.resume_rule at h
    split at h
    · exact absurd h (by simp)
    · split at h
      · exact absurd h (by simp)
      · split at h
        · exact absurd h (by simp)
        · exact absurd h (by simp)
        · simp only [Except.ok.injEq] at h
          subst h
          exact ⟨_, mget_mset_self _ _ _, rfl⟩
  · intro w w' caller now rule_id h
    unfold World.execute_rule at h
    split at h
    · exact absurd h (by simp)
    · split at h
      · exact absurd h (by simp)
      · exact absurd h (by simp)
      · split at h
        · exact absurd h (by simp)
        · split at h
          · exact absurd h (by simp)
          · simp only [Except.ok.injEq] at h
            subst h
            exact ⟨_, mget_mset_self _ _ _, rfl⟩

/-- The engine state after one rule creation at block time 50 (for the
C7 witness). -/
def c7Engine1 : AutomationEngine :=
  match (AutomationEngine.init none).create_rule 0 50 "t" .Time .Daily
      .Transfer (some 1) 5 with
  | .ok p => p.1
  | .error _ => AutomationEngine.init none

/-- An engine state holding one paused rule (for the C7 witness). -/
def c7PausedEngine : AutomationEngine :=
  { next_rule_id := 2
    rules := [(1, { AutomationRule.new 1 0 "t" .Time .Daily .Transfer (some 1)
      5 86450 with status := .Paused })]
    user_rules := [(0, [1])]
    user_rule_count := [(0, 1)]
    vault_address := none
    log := [] }

/-- The engine state after resuming rule 1 of `c7PausedEngine` at block
time 99 (for the C7 witness). -/
def c7Resumed : AutomationEngine :=
  match c7PausedEngine.resume_rule 0 99 1 with
  | .ok e => e
  | .error _ => c7PausedEngine

/-- A deployed world holding one manual Compound rule (for the C7
witness). -/
def c7World : World :=
  { vaultAddr := 100
    engineAddr := 101
    vault := AutomationVault.init none
    engine :=
      { next_rule_id := 2
        rules := [(1, AutomationRule.new 1 0 "t" .Manual .Daily .Compound
          none 0 86400)]
        user_rules := [(0, [1])]
        user_rule_count := [(0, 1)]
        vault_address := none
        log := [] } }

/-- The world after the owner executes rule 1 of `c7World` at block
time 77 (for the C7 witness). -/
def c7World2 : World :=
  match c7World.execute_rule 0 77 1 with
  | .ok w => w
  | .error _ => c7World

/-- Witness for C7 at concrete inputs: creation at time 50, resume at
time 99, execution at time 77 each store a next_execution recomputed
from that time. -/
theorem next_execution_recomputed_witness :
    (∃ r, mget c7Engine1.rules 1 = some r ∧ r.schedule = .Daily ∧
      r.next_execution = AutomationEngine.calculate_next_execution 50 .Daily)
    ∧ (∃ r, mget c7Resumed.rules 1 = some r ∧
      r.next_execution =
        AutomationEngine.calculate_next_execution 99 r.schedule)
    ∧ (∃ r, mget c7World2.engine.rules 1 = some r ∧
      r.next_execution =
        AutomationEngine.calculate_next_execution 77 r.schedule) :=
  ⟨next_execution_recomputed.2.2.2.1 (AutomationEngine.init none) c7Engine1
      0 50 "t" .Time .Daily .Transfer (some 1) 5 1 rfl,
    next_execution_recomputed.2.2.2.2.1 c7PausedEngine c7Resumed 0 99 1 rfl,
    next_execution_recomputed.2.2.2.2.2 c7World c7World2 0 77 1 rfl⟩

/-! ### Tier gate (claim C6) -/

/-- C6.  Tier gate: every account is at Starter tier (maximum two
rules) and, starting with no prior rules, its first two `create_rule`
calls succeed (receiving ids 1 and 2), the third fails with
`MaxRulesReached`, and after the account deletes one of its rules a
further `create_rule` call succeeds again (receiving id 3). -/
theorem tier_gate (a : Address) (va0 : Option Address) (t1 t2 t3 t4 : Nat)
    (tn1 tn2 tn3 tn4 : String) (tt : TriggerType) (sc : Schedule)
    (ac : ActionType) (rec : Option Address) (am : Nat) :
    ∃ e1 e2 e3 e4,
      (AutomationEngine.init va0).create_rule a t1 tn1 tt sc ac rec am =
          .ok (e1, 1)
      ∧ e1.create_rule a t2 tn2 tt sc ac rec am = .ok (e2, 2)
      ∧ e2.create_rule a t3 tn3 tt sc ac rec am = .error .MaxRulesReached
      ∧ e2.delete_rule a 1 = .ok e3
      ∧ e3.create_rule a t4 tn4 tt sc ac rec am = .ok (e4, 3) := by
  refine ⟨
    ⟨2, [(1, AutomationRule.new 1 a tn1 tt sc ac rec am
        (AutomationEngine.calculate_next_execution t1 sc))],
      [(a, [1])], [(a, 1)], va0, [.RuleCreated 1 a tn1]⟩,
    ⟨3, [(1, AutomationRule.new 1 a tn1 tt sc ac rec am
        (AutomationEngine.calculate_next_execution t1 sc)),
      (2, AutomationRule.new 2 a tn2 tt sc ac rec am
        (AutomationEngine.calculate_next_execution t2 sc))],
      [(a, [1, 2])], [(a, 2)], va0,
      [.RuleCreated 2 a tn2, .RuleCreated 1 a tn1]⟩,
    ⟨3, [(1, { AutomationRule.new 1 a tn1 tt sc ac rec am
        (AutomationEngine.calculate_next_execution t1 sc) with
          status := .Deleted }),
      (2, AutomationRule.new 2 a tn2 tt sc ac rec am
        (AutomationEngine.calculate_next_execution t2 sc))],
      [(a, [1, 2])], [(a, 1)], va0,
      [.RuleDeleted 1 a, .RuleCreated 2 a tn2, .RuleCreated 1 a tn1]⟩,
    ⟨4, [(1, { AutomationRule.new 1 a tn1 tt sc ac rec am
        (AutomationEngine.calculate_next_execution t1 sc) with
          status := .Deleted }),
      (2, AutomationRule.new 2 a tn2 tt sc ac rec am
        (AutomationEngine.calculate_next_execution t2 sc)),
      (3, AutomationRule.new 3 a tn4 tt sc ac rec am
        (AutomationEngine.calculate_next_execution t4 sc))],
      [(a, [1, 2, 3])], [(a, 2)], va0,
      [.RuleCreated 3 a tn4, .RuleDeleted 1 a, .RuleCreated 2 a tn2,
        .RuleCreated 1 a tn1]⟩,
    ?_, ?_, ?_, ?_, ?_⟩ <;>
    simp [AutomationEngine.create_rule, AutomationEngine.delete_rule,
      AutomationEngine.get_user_tier, StakingTier.max_rules,
      AutomationEngine.init, AutomationRule.new, mgetD, mget, mset]

/-! ### End-to-end scenario A (claim C3) -/

/-- C3.  End-to-end scenario A on a wired deployment (vault at address
100 authorizing the engine at address 101): account 0 deposits 100
units and creates a Daily Time Transfer rule of 30 units to account 1
at block time T.  The new rule has id 1 and `next_execution = T +
86400`; `execute_rule` at time T fails with `TriggerTimeNotReached`;
`execute_rule` at time T + 86400 (by any keeper) succeeds, leaves
account 0 with vault balance 70, pays 30 units out with an
`AutomationExecuted` record to account 1, and leaves the rule with
`last_executed = T + 86400`, `next_execution = T + 172800` and
`execution_count = 1`. -/
theorem scenario_daily_transfer (T : Nat) (keeper : Address) :
    ∃ w1 w2 w3 : World,
      applyOp (World.initWorld 100 101 (some 101) (some 100))
          (.deposit 0 100) = .ok w1
      ∧ w1.vault.get_balance 0 = 100
      ∧ applyOp w1 (.createRule 0 T "daily" .Time .Daily .Transfer (some 1) 30)
          = .ok w2
      ∧ (∃ r, mget w2.engine.rules 1 = some r ∧ r.next_execution = T + 86400)
      ∧ applyOp w2 (.executeRule keeper T 1) = .error .TriggerTimeNotReached
      ∧ applyOp w2 (.executeRule keeper (T + 86400) 1) = .ok w3
      ∧ w3.vault.get_balance 0 = 70
      ∧ w3.vault.total_out = 30
      ∧ w3.vault.log.head? = some (.AutomationExecuted 0 1 1 30)
      ∧ (∃ r, mget w3.engine.rules 1 = some r ∧ r.last_executed = T + 86400
          ∧ r.next_execution = T + 172800 ∧ r.execution_count = 1) := by
  refine ⟨
    ⟨100, 101,
      ⟨[(0, 100)], some 101, [.Deposited 0 100 100], 100, 0⟩,
      AutomationEngine.init (some 100)⟩,
    ⟨100, 101,
      ⟨[(0, 100)], some 101, [.Deposited 0 100 100], 100, 0⟩,
      ⟨2, [(1, AutomationRule.new 1 0 "daily" .Time .Daily .Transfer (some 1)
          30 (T + 86400))],
        [(0, [1])], [(0, 1)], some 100, [.RuleCreated 1 0 "daily"]⟩⟩,
    ⟨100, 101,
      ⟨[(0, 70)], some 101,
        [.AutomationExecuted 0 1 1 30, .Deposited 0 100 100], 100, 30⟩,
      ⟨2, [(1, { AutomationRule.new 1 0 "daily" .Time .Daily .Transfer
          (some 1) 30 (T + 86400) with
            last_executed := T + 86400
            next_execution := T + 86400 + 86400
            execution_count := 1 })],
        [(0, [1])], [(0, 1)], some 100,
        [.RuleExecuted 1 0 (T + 86400), .RuleCreated 1 0 "daily"]⟩⟩,
    ?_, ?_, ?_, ?_, ?_, ?_, ?_, ?_, ?_, ?_⟩
  · rfl
  · rfl
  · simp [applyOp, AutomationEngine.create_rule, AutomationEngine.init,
      AutomationEngine.get_user_tier, StakingTier.max_rules,
      AutomationEngine.calculate_next_execution, SECONDS_PER_DAY,
      AutomationRule.new, mgetD, mget, mset, Except.map]
  · exact ⟨_, rfl, rfl⟩
  · have hT : T < T + 86400 := by omega
    simp [applyOp, World.execute_rule, World.trigger_check, mget, hT,
      AutomationRule.new]
  · simp [applyOp, World.execute_rule, World.trigger_check,
      World.dispatch_action, World.engine_execute_transfer,
      AutomationEngine.transfer_target, AutomationVault.execute_transfer,
      AutomationEngine.calculate_next_execution, SECONDS_PER_DAY,
      AutomationRule.new, mgetD, mget, mset]
  · rfl
  · rfl
  · rfl
  · exact ⟨_, rfl, rfl,
      (by omega : T + 86400 + 86400 = T + 172800), rfl⟩

/-! ### Structural facts about successful engine calls -/

theorem create_rule_ok {e e' : AutomationEngine} {c : Address} {now : Nat}
    {tn : String} {tt : TriggerType} {sc : Schedule} {ac : ActionType}
    {rec : Option Address} {am rule_id : Nat}
    (h : e.create_rule c now tn tt sc ac rec am = .ok (e', rule_id)) :
    rule_id = e.next_rule_id
    ∧ e'.next_rule_id = e.next_rule_id + 1
    ∧ e'.rules = mset e.rules e.next_rule_id
        (AutomationRule.new e.next_rule_id c tn tt sc ac rec am
          (AutomationEngine.calculate_next_execution now sc)) := by
  unfold AutomationEngine.create_rule at h
  dsimp only at h
  split at h
  · exact absurd h (by simp)
  · simp only [Except.ok.injEq, Prod.mk.injEq] at h
    obtain ⟨he, hid⟩ := h
    subst he
    subst hid
    exact ⟨rfl, rfl, rfl⟩

theorem pause_rule_ok {e e' : AutomationEngine} {c : Address} {rule_id : Nat}
    (h : e.pause_rule c rule_id = .ok e') :
    ∃ rule, mget e.rules rule_id = some rule ∧ rule.owner = c
      ∧ rule.status = .Active
      ∧ e'.rules = mset e.rules rule_id { rule with status := .Paused }
      ∧ e'.next_rule_id = e.next_rule_id := by
  unfold AutomationEngine.pause_rule at h
  split at h
  · exact absurd h (by simp)
  · rename_i rule hrule
    split at h
    · exact absurd h (by simp)
    · rename_i howner
      split at h
      · exact absurd h (by simp)
      · exact absurd h (by simp)
      · rename_i hst
        simp only [Except.ok.injEq] at h
        subst h
        exact ⟨rule, hrule, by simpa using howner, hst, rfl, rfl⟩

theorem resume_rule_ok {e e' : AutomationEngine} {c : Address} {now rule_id : Nat}
    (h : e.resume_rule c now rule_id = .ok e') :
    ∃ rule, mget e.rules rule_id = some rule ∧ rule.owner = c
      ∧ rule.status = .Paused
      ∧ e'.rules = mset e.rules rule_id
          { rule with
              status := .Active
              next_execution :=
                AutomationEngine.calculate_next_execution now rule.schedule }
      ∧ e'.next_rule_id = e.next_rule_id := by
  unfold AutomationEngine.resume_rule at h
  split at h
  · exact absurd h (by simp)
  · rename_i rule hrule
    split at h
    · exact absurd h (by simp)
    · rename_i howner
      split at h
      · exact absurd h (by simp)
      · exact absurd h (by simp)
      · rename_i hst
        simp only [Except.ok.injEq] at h
        subst h
        exact ⟨rule, hrule, by simpa using howner, hst, rfl, rfl⟩

theorem delete_rule_ok {e e' : AutomationEngine} {c : Address} {rule_id : Nat}
    (h : e.delete_rule c rule_id = .ok e') :
    ∃ rule, mget e.rules rule_id = some rule ∧ rule.owner = c
      ∧ e'.rules = mset e.rules rule_id { rule with status := .Deleted }
      ∧ e'.next_rule_id = e.next_rule_id := by
  unfold AutomationEngine.delete_rule at h
  split at h
  · exact absurd h (by simp)
  · rename_i rule hrule
    split at h
    · exact absurd h (by simp)
    · rename_i howner
      simp only [Except.ok.injEq] at h
      subst h
      exact ⟨rule, hrule, by simpa using howner, rfl, rfl⟩

theorem execute_rule_ok {w w' : World} {c : Address} {now rule_id : Nat}
    (h : w.execute_rule c now rule_id = .ok w') :
    ∃ rule, mget w.engine.rules rule_id = some rule
      ∧ rule.status = .Active
      ∧ w'.engine.rules = mset w.engine.rules rule_id
          { rule with
              last_executed := now
              next_execution :=
                AutomationEngine.calculate_next_execution now rule.schedule
              execution_count := rule.execution_count + 1 }
      ∧ w'.engine.next_rule_id = w.engine.next_rule_id := by
  unfold World.execute_rule at h
  split at h
  · exact absurd h (by simp)
  · rename_i rule hrule
    split at h
    · exact absurd h (by simp)
    · exact absurd h (by simp)
    · rename_i hst
      split at h
      · exact absurd h (by simp)
      · split at h
        · exact absurd h (by simp)
        · simp only [Except.ok.injEq] at h
          subst h
          exact ⟨rule, hrule, hst, rfl, rfl⟩

/-- The engine state is untouched by a deposit call. -/
theorem step_engine_deposit (w : World) (c : Address) (a : Nat) :
    (step w (.deposit c a)).engine = w.engine := by
  simp only [step, applyOp]
  cases h : w.vault.deposit c a <;> simp [Except.map]

/-- The engine state is untouched by a withdraw call. -/
theorem step_engine_withdraw (w : World) (c : Address) (a : Nat) :
    (step w (.withdraw c a)).engine = w.engine := by
  simp only [step, applyOp]
  cases h : w.vault.withdraw c a <;> simp [Except.map]

/-- The engine state is untouched by a direct vault execute-transfer
call. -/
theorem step_engine_vet (w : World) (c o r : Address) (a rid : Nat) :
    (step w (.vaultExecuteTransfer c o r a rid)).engine = w.engine := by
  simp only [step, applyOp]
  cases h : w.vault.execute_transfer c o r a rid <;> simp [Except.map]

/-- The engine state is untouched by a set-automation-engine call. -/
theorem step_engine_setEngine (w : World) (c eng : Address) :
    (step w (.setAutomationEngine c eng)).engine = w.engine := rfl

/-! ### Rule id monotonicity (claim C5) -/

/-- The ids returned by the successful `create_rule` calls of a trace,
in call order. -/
def createdIds (w : World) : List Op → List Nat
  | [] => []
  | op :: ops =>
    (match op with
     | .createRule c now tn tt sc ac rec am =>
       match w.engine.create_rule c now tn tt sc ac rec am with
       | .ok p => [p.2]
       | .error _ => []
     | _ => []) ++ createdIds (step w op) ops

/-- The list of k consecutive naturals starting at s. -/
def idRange (s : Nat) : Nat → List Nat
  | 0 => []
  | k + 1 => s :: idRange (s + 1) k

theorem idRange_mem {i : Nat} (s k : Nat) (h : i ∈ idRange s k) : s ≤ i := by
  induction k generalizing s with
  | zero => simp [idRange] at h
  | succ k ih =>
    simp only [idRange, List.mem_cons] at h
    rcases h with h | h
    · omega
    · have := ih (s + 1) h
      omega

theorem idRange_pairwise (s k : Nat) :
    List.Pairwise (· < ·) (idRange s k) := by
  induction k generalizing s with
  | zero => simp [idRange]
  | succ k ih =>
    rw [idRange, List.pairwise_cons]
    exact ⟨fun b hb => Nat.lt_of_lt_of_le (Nat.lt_succ_self s)
      (idRange_mem (s + 1) k hb), ih (s + 1)⟩

theorem idRange_head (s k : Nat) :
    idRange s k = [] ∨ (idRange s k).head? = some s := by
  cases k <;> simp [idRange]

/-- A non-create operation never changes the id counter (and a failed
call changes nothing). -/
theorem step_next_rule_id (w : World) (op : Op)
    (hop : ∀ c now tn tt sc ac rec am,
      op ≠ .createRule c now tn tt sc ac rec am) :
    (step w op).engine.next_rule_id = w.engine.next_rule_id := by
  cases op with
  | deposit c a => rw [step_engine_deposit w c a]
  | withdraw c a => rw [step_engine_withdraw w c a]
  | vaultExecuteTransfer c o r a rid => rw [step_engine_vet w c o r a rid]
  | setAutomationEngine c eng => rw [step_engine_setEngine w c eng]
  | createRule c now tn tt sc ac rec am =>
    exact absurd rfl (hop c now tn tt sc ac rec am)
  | pauseRule c rid =>
    simp only [step, applyOp]
    cases h : w.engine.pause_rule c rid with
    | error e => simp [Except.map]
    | ok e2 =>
      simp only [Except.map]
      exact (pause_rule_ok h).choose_spec.2.2.2.2
  | resumeRule c now rid =>
    simp only [step, applyOp]
    cases h : w.engine.resume_rule c now rid with
    | error e => simp [Except.map]
    | ok e2 =>
      simp only [Except.map]
      exact (resume_rule_ok h).choose_spec.2.2.2.2
  | deleteRule c rid =>
    simp only [step, applyOp]
    cases h : w.engine.delete_rule c rid with
    | error e => simp [Except.map]
    | ok e2 =>
      simp only [Except.map]
      exact (delete_rule_ok h).choose_spec.2.2.2
  | executeRule c now rid =>
    simp only [step, applyOp]
    cases h : w.execute_rule c now rid with
    | error e => simp
    | ok w2 =>
      simp only []
      exact (execute_rule_ok h).choose_spec.2.2.2
  | setVaultAddress c va => rfl

theorem createdIds_cons_non_create (w : World) (op : Op) (ops : List Op)
    (hop : ∀ c now tn tt sc ac rec am,
      op ≠ .createRule c now tn tt sc ac rec am) :
    createdIds w (op :: ops) = createdIds (step w op) ops := by
  cases op with
  | createRule c now tn tt sc ac rec am =>
    exact absurd rfl (hop c now tn tt sc ac rec am)
  | _ => rfl

/-- The ids handed out along any trace are exactly the consecutive
block starting at the current id counter. -/
theorem createdIds_idRange (ops : List Op) (w : World) :
    ∃ k, createdIds w ops = idRange w.engine.next_rule_id k
      ∧ (runOps w ops).engine.next_rule_id = w.engine.next_rule_id + k := by
  induction ops generalizing w with
  | nil => exact ⟨0, rfl, rfl⟩
  | cons op ops ih =>
    by_cases hc : ∃ c now tn tt sc ac rec am,
      op = Op.createRule c now tn tt sc ac rec am
    · obtain ⟨c, now, tn, tt, sc, ac, rec, am, rfl⟩ := hc
      cases h : w.engine.create_rule c now tn tt sc ac rec am with
      | error e =>
        have hstep : step w (Op.createRule c now tn tt sc ac rec am) = w := by
          simp [step, applyOp, h, Except.map]
        obtain ⟨k, hids, hnext⟩ := ih w
        refine ⟨k, ?_, ?_⟩
        · simp only [createdIds, h, hstep, List.nil_append]
          exact hids
        · simpa only [runOps, hstep] using hnext
      | ok p =>
        obtain ⟨e2, rid⟩ := p
        obtain ⟨hid, hnext2, _⟩ := create_rule_ok h
        have hstep :
            (step w (Op.createRule c now tn tt sc ac rec am)).engine = e2 := by
          simp [step, applyOp, h, Except.map]
        obtain ⟨k, hids, hnext⟩ :=
          ih (step w (Op.createRule c now tn tt sc ac rec am))
        refine ⟨k + 1, ?_, ?_⟩
        · simp only [createdIds, h, List.singleton_append]
          rw [hids, hstep, hnext2, hid, idRange]
        · rw [hstep, hnext2] at hnext
          simp only [runOps]
          rw [hnext]
          omega
    · push_neg at hc
      have hnid : (step w op).engine.next_rule_id = w.engine.next_rule_id :=
        step_next_rule_id w op hc
      obtain ⟨k, hids, hnext⟩ := ih (step w op)
      refine ⟨k, ?_, ?_⟩
      · rw [createdIds_cons_non_create w op ops hc, hids, hnid]
      · simp only [runOps]
        rw [hnext, hnid]

/-- C5.  Rule id monotonicity: along every operation sequence from a
fresh deployment, the ids returned by the successful `create_rule`
calls are strictly increasing, never repeated (so never reused even
after deletions), and the first one handed out is 1. -/
theorem rule_id_monotonicity (vaultAddr engineAddr : Address)
    (eng0 va0 : Option Address) (ops : List Op) :
    List.Chain' (· < ·)
      (createdIds (World.initWorld vaultAddr engineAddr eng0 va0) ops)
    ∧ (createdIds (World.initWorld vaultAddr engineAddr eng0 va0) ops).Nodup
    ∧ (createdIds (World.initWorld vaultAddr engineAddr eng0 va0) ops = []
      ∨ (createdIds (World.initWorld vaultAddr engineAddr eng0 va0) ops).head?
          = some 1) := by
  obtain ⟨k, hids, _⟩ :=
    createdIds_idRange ops (World.initWorld vaultAddr engineAddr eng0 va0)
  have hinit :
      (World.initWorld vaultAddr engineAddr eng0 va0).engine.next_rule_id = 1 :=
    rfl
  rw [hids, hinit]
  exact ⟨(idRange_pairwise 1 k).chain',
    (idRange_pairwise 1 k).imp Nat.ne_of_lt, idRange_head 1 k⟩

/-! ### Rule status machine (claim C4) -/

/-- The status of the rule stored under an id, if any. -/
def statusOf (w : World) (rule_id : Nat) : Option RuleStatus :=
  (mget w.engine.rules rule_id).map (fun r => r.status)

/-- Every stored rule id is below the id counter (holds in every
reachable engine state). -/
def EngineIdInv (e : AutomationEngine) : Prop :=
  ∀ id r, mget e.rules id = some r → id < e.next_rule_id

/-- The status transitions the claim allows for one external call on
the rule stored under `rule_id`: either the status is untouched, or it
moves Active to Paused via a pause of that rule, Paused to Active via a
resume of that rule, Active or Paused to Deleted via a delete of that
rule, or the rule comes into existence Active via a create call. -/
def StatusStepOk (w : World) (op : Op) (rule_id : Nat) : Prop :=
  statusOf (step w op) rule_id = statusOf w rule_id
  ∨ (statusOf w rule_id = some .Active
      ∧ statusOf (step w op) rule_id = some .Paused
      ∧ ∃ c, op = .pauseRule c rule_id)
  ∨ (statusOf w rule_id = some .Paused
      ∧ statusOf (step w op) rule_id = some .Active
      ∧ ∃ c now, op = .resumeRule c now rule_id)
  ∨ ((statusOf w rule_id = some .Active ∨ statusOf w rule_id = some .Paused)
      ∧ statusOf (step w op) rule_id = some .Deleted
      ∧ ∃ c, op = .deleteRule c rule_id)
  ∨ (statusOf w rule_id = none
      ∧ statusOf (step w op) rule_id = some .Active
      ∧ ∃ c now tn tt sc ac rec am, op = .createRule c now tn tt sc ac rec am)

theorem engineIdInv_init (va0 : Option Address) :
    EngineIdInv (AutomationEngine.init va0) := by
  intro id r h
  simp [AutomationEngine.init, mget] at h

theorem engineIdInv_mset_existing {e : AutomationEngine}
    (hinv : EngineIdInv e) {rid : Nat} {rule : AutomationRule}
    (hr : mget e.rules rid = some rule) (v : AutomationRule) :
    ∀ id r, mget (mset e.rules rid v) id = some r → id < e.next_rule_id := by
  intro id r h
  by_cases hid : id = rid
  · subst hid
    exact hinv id rule hr
  · rw [mget_mset_ne _ _ _ _ hid] at h
    exact hinv id r h

theorem step_engine_create_ok {w : World} {c : Address} {now : Nat}
    {tn : String} {tt : TriggerType} {sc : Schedule} {ac : ActionType}
    {rec : Option Address} {am : Nat} {e2 : AutomationEngine} {rid : Nat}
    (h : w.engine.create_rule c now tn tt sc ac rec am = .ok (e2, rid)) :
    (step w (.createRule c now tn tt sc ac rec am)).engine = e2 := by
  simp [step, applyOp, h, Except.map]

theorem step_engine_create_err {w : World} {c : Address} {now : Nat}
    {tn : String} {tt : TriggerType} {sc : Schedule} {ac : ActionType}
    {rec : Option Address} {am : Nat} {e : Error}
    (h : w.engine.create_rule c now tn tt sc ac rec am = .error e) :
    step w (.createRule c now tn tt sc ac rec am) = w := by
  simp [step, applyOp, h, Except.map]

theorem step_engine_pause_ok {w : World} {c : Address} {rid : Nat}
    {e2 : AutomationEngine} (h : w.engine.pause_rule c rid = .ok e2) :
    (step w (.pauseRule c rid)).engine = e2 := by
  simp [step, applyOp, h, Except.map]

theorem step_engine_pause_err {w : World} {c : Address} {rid : Nat}
    {e : Error} (h : w.engine.pause_rule c rid = .error e) :
    step w (.pauseRule c rid) = w := by
  simp [step, applyOp, h, Except.map]

theorem step_engine_resume_ok {w : World} {c : Address} {now rid : Nat}
    {e2 : AutomationEngine} (h : w.engine.resume_rule c now rid = .ok e2) :
    (step w (.resumeRule c now rid)).engine = e2 := by
  simp [step, applyOp, h, Except.map]

theorem step_engine_resume_err {w : World} {c : Address} {now rid : Nat}
    {e : Error} (h : w.engine.resume_rule c now rid = .error e) :
    step w (.resumeRule c now rid) = w := by
  simp [step, applyOp, h, Except.map]

theorem step_engine_delete_ok {w : World} {c : Address} {rid : Nat}
    {e2 : AutomationEngine} (h : w.engine.delete_rule c rid = .ok e2) :
    (step w (.deleteRule c rid)).engine = e2 := by
  simp [step, applyOp, h, Except.map]

theorem step_engine_delete_err {w : World} {c : Address} {rid : Nat}
    {e : Error} (h : w.engine.delete_rule c rid = .error e) :
    step w (.deleteRule c rid) = w := by
  simp [step, applyOp, h, Except.map]

theorem step_execute_ok {w w2 : World} {c : Address} {now rid : Nat}
    (h : w.execute_rule c now rid = .ok w2) :
    step w (.executeRule c now rid) = w2 := by
  simp [step, applyOp, h]

theorem step_execute_err {w : World} {c : Address} {now rid : Nat}
    {e : Error} (h : w.execute_rule c now rid = .error e) :
    step w (.executeRule c now rid) = w := by
  simp [step, applyOp, h]

theorem step_engineIdInv (w : World) (op : Op)
    (hinv : EngineIdInv w.engine) : EngineIdInv (step w op).engine := by
  cases op with
  | deposit c a =>
    rw [step_engine_deposit]
    exact hinv
  | withdraw c a =>
    rw [step_engine_withdraw]
    exact hinv
  | vaultExecuteTransfer c o r a rid =>
    rw [step_engine_vet]
    exact hinv
  | setAutomationEngine c eng =>
    rw [step_engine_setEngine]
    exact hinv
  | setVaultAddress c va => exact hinv
  | createRule c now tn tt sc ac rec am =>
    cases h : w.engine.create_rule c now tn tt sc ac rec am with
    | error e =>
      rw [step_engine_create_err h]
      exact hinv
    | ok p =>
      obtain ⟨e2, rid⟩ := p
      rw [step_engine_create_ok h]
      obtain ⟨hid, hnext2, hrules⟩ := create_rule_ok h
      intro id r hmr
      rw [hrules] at hmr
      rw [hnext2]
      by_cases hidq : id = w.engine.next_rule_id
      · omega
      · rw [mget_mset_ne _ _ _ _ hidq] at hmr
        have := hinv id r hmr
        omega
  | pauseRule c rid =>
    cases h : w.engine.pause_rule c rid with
    | error e =>
      rw [step_engine_pause_err h]
      exact hinv
    | ok e2 =>
      rw [step_engine_pause_ok h]
      obtain ⟨rule, hr, _, _, hrules, hnext⟩ := pause_rule_ok h
      intro id r hmr
      rw [hrules] at hmr
      rw [hnext]
      exact engineIdInv_mset_existing hinv hr _ id r hmr
  | resumeRule c now rid =>
    cases h : w.engine.resume_rule c now rid with
    | error e =>
      rw [step_engine_resume_err h]
      exact hinv
    | ok e2 =>
      rw [step_engine_resume_ok h]
      obtain ⟨rule, hr, _, _, hrules, hnext⟩ := resume_rule_ok h
      intro id r hmr
      rw [hrules] at hmr
      rw [hnext]
      exact engineIdInv_mset_existing hinv hr _ id r hmr
  | deleteRule c rid =>
    cases h : w.engine.delete_rule c rid with
    | error e =>
      rw [step_engine_delete_err h]
      exact hinv
    | ok e2 =>
      rw [step_engine_delete_ok h]
      obtain ⟨rule, hr, _, hrules, hnext⟩ := delete_rule_ok h
      intro id r hmr
      rw [hrules] at hmr
      rw [hnext]
      exact engineIdInv_mset_existing hinv hr _ id r hmr
  | executeRule c now rid =>
    cases h : w.execute_rule c now rid with
    | error e =>
      rw [step_execute_err h]
      exact hinv
    | ok w2 =>
      rw [step_execute_ok h]
      obtain ⟨rule, hr, _, hrules, hnext⟩ := execute_rule_ok h
      intro id r hmr
      rw [hrules] at hmr
      rw [hnext]
      exact engineIdInv_mset_existing hinv hr _ id r hmr

theorem runOps_engineIdInv (ops : List Op) (w : World)
    (hinv : EngineIdInv w.engine) : EngineIdInv (runOps w ops).engine := by
  induction ops generalizing w with
  | nil => exact hinv
  | cons op ops ih => exact ih (step w op) (step_engineIdInv w op hinv)

theorem statusStepOk_of_inv (w : World) (op : Op) (rid : Nat)
    (hinv : EngineIdInv w.engine) : StatusStepOk w op rid := by
  cases op with
  | deposit c a =>
    left
    unfold statusOf
    rw [step_engine_deposit]
  | withdraw c a =>
    left
    unfold statusOf
    rw [step_engine_withdraw]
  | vaultExecuteTransfer c o r a rid2 =>
    left
    unfold statusOf
    rw [step_engine_vet]
  | setAutomationEngine c eng =>
    left
    unfold statusOf
    rw [step_engine_setEngine]
  | setVaultAddress c va => left; rfl
  | createRule c now tn tt sc ac rec am =>
    cases h : w.engine.create_rule c now tn tt sc ac rec am with
    | error e =>
      left
      rw [step_engine_create_err h]
    | ok p =>
      obtain ⟨e2, rid2⟩ := p
      obtain ⟨hid, hnext2, hrules⟩ := create_rule_ok h
      by_cases hq : rid = w.engine.next_rule_id
      · right; right; right; right
        have hnone : mget w.engine.rules rid = none := by
          cases hm : mget w.engine.rules rid with
          | none => rfl
          | some r =>
            have := hinv rid r hm
            omega
        refine ⟨by simp [statusOf, hnone], ?_,
          c, now, tn, tt, sc, ac, rec, am, rfl⟩
        unfold statusOf
        rw [step_engine_create_ok h, hrules, hq, mget_mset_self]
        rfl
      · left
        unfold statusOf
        rw [step_engine_create_ok h, hrules, mget_mset_ne _ _ _ _ hq]
  | pauseRule c rid2 =>
    cases h : w.engine.pause_rule c rid2 with
    | error e =>
      left
      rw [step_engine_pause_err h]
    | ok e2 =>
      obtain ⟨rule, hr, hown, hst, hrules, hnext⟩ := pause_rule_ok h
      by_cases hq : rid = rid2
      · subst hq
        right; left
        refine ⟨by simp [statusOf, hr, hst], ?_, c, rfl⟩
        unfold statusOf
        rw [step_engine_pause_ok h, hrules, mget_mset_self]
        rfl
      · left
        unfold statusOf
        rw [step_engine_pause_ok h, hrules, mget_mset_ne _ _ _ _ hq]
  | resumeRule c now rid2 =>
    cases h : w.engine.resume_rule c now rid2 with
    | error e =>
      left
      rw [step_engine_resume_err h]
    | ok e2 =>
      obtain ⟨rule, hr, hown, hst, hrules, hnext⟩ := resume_rule_ok h
      by_cases hq : rid = rid2
      · subst hq
        right; right; left
        refine ⟨by simp [statusOf, hr, hst], ?_, c, now, rfl⟩
        unfold statusOf
        rw [step_engine_resume_ok h, hrules, mget_mset_self]
        rfl
      · left
        unfold statusOf
        rw [step_engine_resume_ok h, hrules, mget_mset_ne _ _ _ _ hq]
  | deleteRule c rid2 =>
    cases h : w.engine.delete_rule c rid2 with
    | error e =>
      left
      rw [step_engine_delete_err h]
    | ok e2 =>
      obtain ⟨rule, hr, hown, hrules, hnext⟩ := delete_rule_ok h
      by_cases hq : rid = rid2
      · subst hq
        cases hst : rule.status with
        | Deleted =>
          left
          unfold statusOf
          rw [step_engine_delete_ok h, hrules, mget_mset_self, hr]
          simp [hst]
        | Active =>
          right; right; right; left
          refine ⟨Or.inl (by simp [statusOf, hr, hst]), ?_, c, rfl⟩
          unfold statusOf
          rw [step_engine_delete_ok h, hrules, mget_mset_self]
          rfl
        | Paused =>
          right; right; right; left
          refine ⟨Or.inr (by simp [statusOf, hr, hst]), ?_, c, rfl⟩
          unfold statusOf
          rw [step_engine_delete_ok h, hrules, mget_mset_self]
          rfl
      · left
        unfold statusOf
        rw [step_engine_delete_ok h, hrules, mget_mset_ne _ _ _ _ hq]
  | executeRule c now rid2 =>
    cases h : w.execute_rule c now rid2 with
    | error e =>
      left
      rw [step_execute_err h]
    | ok w2 =>
      obtain ⟨rule, hr, hst, hrules, hnext⟩ := execute_rule_ok h
      by_cases hq : rid = rid2
      · subst hq
        left
        unfold statusOf
        rw [step_execute_ok h, hrules, mget_mset_self, hr]
        rfl
      · left
        unfold statusOf
        rw [step_execute_ok h, hrules, mget_mset_ne _ _ _ _ hq]

theorem pause_rule_deleted {e : AutomationEngine} {rid : Nat}
    {r : AutomationRule} (hr : mget e.rules rid = some r)
    (hst : r.status = .Deleted) :
    e.pause_rule r.owner rid = .error .RuleNotFound := by
  unfold AutomationEngine.pause_rule
  rw [hr]
  dsimp only
  rw [if_neg (by simp), hst]

theorem resume_rule_deleted {e : AutomationEngine} {now rid : Nat}
    {r : AutomationRule} (hr : mget e.rules rid = some r)
    (hst : r.status = .Deleted) :
    e.resume_rule r.owner now rid = .error .RuleNotFound := by
  unfold AutomationEngine.resume_rule
  rw [hr]
  dsimp only
  rw [if_neg (by simp), hst]

/-- C4.  Rule status machine: in every reachable state, one further
external call changes the status of the rule stored under an id only
along the allowed transitions (Active to Paused via a pause of that
rule, Paused to Active via a resume, Active or Paused to Deleted via a
delete, absent to Active via a create); a rule whose status is Deleted
keeps status Deleted under every operation, and an owner pause or
resume call on it fails with `RuleNotFound`. -/
theorem rule_status_machine (vaultAddr engineAddr : Address)
    (eng0 va0 : Option Address) (ops : List Op) (op : Op) (rid now : Nat) :
    StatusStepOk (runOps (World.initWorld vaultAddr engineAddr eng0 va0) ops)
      op rid
    ∧ (statusOf (runOps (World.initWorld vaultAddr engineAddr eng0 va0) ops)
          rid = some .Deleted →
        statusOf
          (step (runOps (World.initWorld vaultAddr engineAddr eng0 va0) ops)
            op) rid = some .Deleted
        ∧ ∀ r, mget (runOps (World.initWorld vaultAddr engineAddr eng0 va0)
              ops).engine.rules rid = some r →
            (runOps (World.initWorld vaultAddr engineAddr eng0 va0)
                ops).engine.pause_rule r.owner rid = .error .RuleNotFound
            ∧ (runOps (World.initWorld vaultAddr engineAddr eng0 va0)
                ops).engine.resume_rule r.owner now rid =
                .error .RuleNotFound) := by
  have hinv :=
    runOps_engineIdInv ops (World.initWorld vaultAddr engineAddr eng0 va0)
      (engineIdInv_init va0)
  have hstep := statusStepOk_of_inv _ op rid hinv
  refine ⟨hstep, fun hdel => ⟨?_, ?_⟩⟩
  · rcases hstep with h | h | h | h | h
    · rw [h]
      exact hdel
    · rw [hdel] at h
      exact absurd h.1 (by simp)
    · rw [hdel] at h
      exact absurd h.1 (by simp)
    · rw [hdel] at h
      rcases h.1 with h1 | h1 <;> exact absurd h1 (by simp)
    · rw [hdel] at h
      exact absurd h.1 (by simp)
  · intro r hr
    have hst : r.status = .Deleted := by
      unfold statusOf at hdel
      rw [hr] at hdel
      simpa using hdel
    exact ⟨pause_rule_deleted hr hst, resume_rule_deleted hr hst⟩

/-- The trace used by the C4 witness: account 0 creates a manual rule
(id 1) and deletes it. -/
def c4ops : List Op :=
  [.createRule 0 5 "t" .Manual .Daily .Compound none 0, .deleteRule 0 1]

/-- Witness for C4 at a concrete input: after `c4ops` rule 1 is
Deleted; a further pause call leaves it Deleted, and owner pause and
resume calls fail with `RuleNotFound`. -/
theorem rule_status_machine_witness :
    statusOf (step (runOps (World.initWorld 100 101 none none) c4ops)
      (.pauseRule 0 1)) 1 = some .Deleted
    ∧ (runOps (World.initWorld 100 101 none none) c4ops).engine.pause_rule 0 1
        = .error .RuleNotFound
    ∧ (runOps (World.initWorld 100 101 none none) c4ops).engine.resume_rule
        0 7 1 = .error .RuleNotFound :=
  have h := (rule_status_machine 100 101 none none c4ops
    (.pauseRule 0 1) 1 7).2 rfl
  ⟨h.1, (h.2 _ rfl).1, (h.2 _ rfl).2⟩

end CasperFlow
